import Mathlib

/-
Formal model of the to-do list application (src/To-Do list app/main.cpp).

The C++ program keeps heap-allocated task objects (`Task` /
`CategorizedTask`) in a `TaskManager` holding a vector of active tasks, a
vector of completed tasks, a `std::map` from title to task pointer and a
`std::set` of category names.  We embed std::string as `List Char`,
pointer identity as a numeric `id` stamped from a fresh-id counter, the
title map as an association list with at most one entry per key (the
`std::map` discipline), and the category set as a duplicate-free list
(membership is the only observable the program relies on besides
iteration order, which no property below touches).
-/

namespace Todo

/-- Character sequences stand in for C++ `std::string` values. -/
abbrev Str := List Char

/-- Shorthand turning a Lean string literal into the character-list form. -/
def str (s : String) : Str := s.data

/-- One task object.  `id` models the identity of the heap allocation
(`new Task(...)` / `new CategorizedTask(...)`): two tasks with equal fields
but different allocations are distinct objects, and `std::remove` on the
task vector compares pointers, i.e. ids.  `cat = none` models a plain
`Task` (whose `getCategory()` returns `""`), `cat = some c` models a
`CategorizedTask` with category string `c`. -/
structure TaskRec where
  id : Nat
  title : Str
  deadline : Str
  completed : Bool
  cat : Option Str
  deriving DecidableEq, Repr

instance : Inhabited TaskRec := ⟨⟨0, [], [], false, none⟩⟩

/-- `Task::getCategory` returns `""`; `CategorizedTask::getCategory`
returns the stored category. -/
def TaskRec.getCategory (t : TaskRec) : Str := t.cat.getD []

/-- `Task::toFileString` produces `title;deadline;flag`,
`CategorizedTask::toFileString` appends `;category`.  The flag serializes
as `"1"` when completed, else `"0"`. -/
def TaskRec.toFileString (t : TaskRec) : Str :=
  t.title ++ ';' ::
    (t.deadline ++ ';' ::
      ((if t.completed then str "1" else str "0") ++
        (t.cat.map (fun c => ';' :: c)).getD []))

/-- The `TaskManager` state: active tasks, completed tasks, the
title-to-task map (`std::map<std::string, TaskBase*>`), the category set
(`std::set<std::string>`), plus the fresh-allocation counter realising
pointer identity. -/
structure TaskManager where
  tasks : List TaskRec
  completedTasks : List TaskRec
  titleMap : List (Str × TaskRec)
  categories : List Str
  nextId : Nat
  deriving DecidableEq, Repr

/-- A freshly constructed `TaskManager` (all containers empty). -/
def initTM : TaskManager := ⟨[], [], [], [], 0⟩

/-- `titleMap.find(key)`: first (and, under the `std::map` discipline,
only) entry with the given key. -/
def lookupTitle : List (Str × TaskRec) → Str → Option TaskRec
  | [], _ => none
  | e :: rest, key => if e.1 = key then some e.2 else lookupTitle rest key

/-- `titleMap[key] = v`: replace the entry with this key if present,
otherwise add a new one (`std::map::operator[]` keeps one entry per key). -/
def insertTitle : List (Str × TaskRec) → Str → TaskRec → List (Str × TaskRec)
  | [], key, v => [(key, v)]
  | e :: rest, key, v =>
      if e.1 = key then (key, v) :: rest else e :: insertTitle rest key v

/-- `titleMap.erase(it)`: drop the entry with this key.  A `std::map`
holds at most one entry per key, so dropping every entry with the key is
the same operation. -/
def eraseTitle (l : List (Str × TaskRec)) (key : Str) : List (Str × TaskRec) :=
  l.filter (fun e => e.1 != key)

/-- `categories.insert(c)`: a `std::set` ignores duplicates.  (The C++ set
iterates in sorted order; no property below looks at the order, so we keep
insertion order.) -/
def insertCat (cs : List Str) (c : Str) : List Str :=
  if c ∈ cs then cs else cs ++ [c]

/-- `TaskManager::addTask(task)`: push onto `tasks`, assign
`titleMap[title] = task`, and if `getCategory()` is non-empty insert it
into `categories`.  The task object is freshly allocated at the call
sites (`new ...`), hence the fresh id. -/
def addTask (m : TaskManager) (title deadline : Str) (completed : Bool)
    (cat : Option Str) : TaskManager :=
  let tk : TaskRec := ⟨m.nextId, title, deadline, completed, cat⟩
  { tasks := m.tasks ++ [tk]
    completedTasks := m.completedTasks
    titleMap := insertTitle m.titleMap title tk
    categories :=
      if tk.getCategory = [] then m.categories
      else insertCat m.categories tk.getCategory
    nextId := m.nextId + 1 }

/-- `TaskManager::markCompleted(title)`: look the title up in `titleMap`;
if absent do nothing.  If present, set the object's completed flag, push
the (same) object onto `completedTasks`, remove every pointer equal to it
from `tasks` (`std::remove` compares pointers, i.e. ids) and erase the map
entry. -/
def markCompleted (m : TaskManager) (title : Str) : TaskManager :=
  match lookupTitle m.titleMap title with
  | none => m
  | some tk =>
      { m with
        tasks := m.tasks.filter (fun u => u.id != tk.id)
        completedTasks := m.completedTasks ++ [{ tk with completed := true }]
        titleMap := eraseTitle m.titleMap title }

/-- `TaskManager::deleteTask(title)`: look the title up in `titleMap`; if
absent do nothing.  If present, remove every pointer equal to it from
`tasks`, free the object and erase the map entry. -/
def deleteTask (m : TaskManager) (title : Str) : TaskManager :=
  match lookupTitle m.titleMap title with
  | none => m
  | some tk =>
      { m with
        tasks := m.tasks.filter (fun u => u.id != tk.id)
        titleMap := eraseTitle m.titleMap title }

/-- Helper for `TaskManager::searchTask`: `title.find(query) !=
std::string::npos`, i.e. `needle` occurs contiguously in `hay` (the empty
needle occurs at position 0). -/
def isSubstr (needle hay : Str) : Bool :=
  (List.range (hay.length + 1)).any (fun i => needle.isPrefixOf (hay.drop i))

/-- `TaskManager::searchTask(query)`: display every active task whose
title contains `query` as a substring; we return the selected tasks in
the order they are printed. -/
def searchTask (m : TaskManager) (q : Str) : List TaskRec :=
  m.tasks.filter (fun t => isSubstr q t.title)

/-- One `getline(stream, field, delim)` step on the remaining characters:
fails (returns `none`, failbit) when no character can be extracted,
otherwise yields the characters before the first delimiter and the rest
after consuming that delimiter. -/
def getlineD (delim : Char) (cs : Str) : Option (Str × Str) :=
  if cs = [] then none
  else
    some (cs.takeWhile (fun c => c != delim),
          (cs.dropWhile (fun c => c != delim)).drop 1)

/-- Sum of a digit string, most significant first — the value
`std::stoi` computes from the digit run it accepts. -/
def digitsToNat (l : Str) : Nat :=
  l.foldl (fun acc c => acc * 10 + (c.toNat - 48)) 0

/-- The whitespace characters `std::stoi` (via `strtol`) skips. -/
def isSpaceChar (c : Char) : Bool :=
  c == ' ' || c == '\t' || c == '\n' || c == '\x0b' || c == '\x0c' || c == '\r'

/-- `std::stoi`: skip leading whitespace, read an optional sign, then a
non-empty digit run; `none` models the thrown `std::invalid_argument`
(no digits) and `std::out_of_range` (value outside the 32-bit `int`
range). -/
def stoi (cs : Str) : Option Int :=
  let cs1 := cs.dropWhile isSpaceChar
  let cs2 :=
    if cs1.headD ' ' = '-' ∨ cs1.headD ' ' = '+' then cs1.drop 1 else cs1
  let digs := cs2.takeWhile Char.isDigit
  if digs = [] then none
  else
    let n : Int := (digitsToNat digs : Int)
    let v : Int := if cs1.headD ' ' = '-' then -n else n
    if v < -(2 ^ 31) ∨ (2 ^ 31 - 1 : Int) < v then none else some v

/-- The zero padding applied to a single-character day or month field:
`if (day.length() == 1) day = "0" + day;`. -/
def pad2 (l : Str) : Str := if l.length = 1 then '0' :: l else l

/-- `TaskManager::dateToInt`: three `getline(ss, _, '.')` calls (a failed
call leaves the field empty), zero-pad a single-character day or month,
then `std::stoi(year + month + day)`. -/
def dateToInt (date : Str) : Option Int :=
  let g1 := (getlineD '.' date).getD ([], [])
  let g2 := (getlineD '.' g1.2).getD ([], [])
  let g3 := (getlineD '.' g2.2).getD ([], [])
  stoi (g3.1 ++ pad2 g2.1 ++ pad2 g1.1)

/-- Insertion step of the deadline sort: the comparator of
`TaskManager::viewTasks` is `dateToInt(a) < dateToInt(b)`.  (Only applied
under the guard that every deadline parses, so the `getD 0` default is
never the deciding value.) -/
def insertByKey (a : TaskRec) : List TaskRec → List TaskRec
  | [] => [a]
  | b :: rest =>
      if (dateToInt a.deadline).getD 0 < (dateToInt b.deadline).getD 0 then
        a :: b :: rest
      else b :: insertByKey a rest

/-- Sorting the task vector with the deadline comparator. -/
def sortByDeadline (l : List TaskRec) : List TaskRec :=
  l.foldr insertByKey []

/-- `TaskManager::viewTasks(sorted)`: display the active tasks, sorted by
the deadline key when requested; we return the tasks in display order.
`std::sort` is modelled by an insertion sort — on pairwise-distinct keys
every comparison-correct sort produces the same list.  When some deadline
fails `dateToInt`, the C++ comparator throws `std::invalid_argument` out
of `std::sort` and the program aborts; we return `none` for that fault. -/
def viewTasks (m : TaskManager) (sorted : Bool) : Option (List TaskRec) :=
  if sorted then
    if m.tasks.all (fun t => (dateToInt t.deadline).isSome) then
      some (sortByDeadline m.tasks)
    else none
  else some m.tasks

/-- `TaskManager::viewCompleted()`: display order of the completed list. -/
def viewCompleted (m : TaskManager) : List TaskRec := m.completedTasks

/-- The lines `TaskManager::saveToFile` writes: every active task's
`toFileString`, then every completed task's `toFileString` prefixed with
`DONE:`. -/
def saveLines (m : TaskManager) : List Str :=
  m.tasks.map TaskRec.toFileString ++
    m.completedTasks.map (fun t => str "DONE:" ++ t.toFileString)

/-- `TaskManager::saveToFile(filename)`: the function opens an
`std::ofstream` and streams the lines.  `openOk` models whether the path
could be opened for writing; inserting into a failed stream is a no-op,
the function returns `void` and never inspects the stream state nor
throws, so every run ends in `Except.ok` — with an empty output when the
open failed. -/
def saveToFile (m : TaskManager) (openOk : Bool) : Except String (List Str) :=
  Except.ok (if openOk then saveLines m else [])

/-- The field-splitting done by `TaskManager::loadFromFile` on one
(already `DONE:`-stripped) line: three `getline(ss, _, ';')` calls whose
failure leaves the field empty, and a fourth whose success decides
whether a `CategorizedTask` is built. -/
def parseFields (cs : Str) : Str × Str × Str × Option Str :=
  let g1 := (getlineD ';' cs).getD ([], [])
  let g2 := (getlineD ';' g1.2).getD ([], [])
  let g3 := (getlineD ';' g2.2).getD ([], [])
  (g1.1, g2.1, g3.1, (getlineD ';' g3.2).map Prod.fst)

/-- Processing of a single line by `TaskManager::loadFromFile`: strip a
leading `DONE:` marker, split the fields, parse the flag
(`completedStr == "1"`); a `DONE:` line is pushed directly onto
`completedTasks` (bypassing `addTask`), any other line goes through
`addTask`. -/
def loadLine (m : TaskManager) (line : Str) : TaskManager :=
  let isDone := (str "DONE:").isPrefixOf line
  let body := if isDone then line.drop 5 else line
  let f := parseFields body
  let completed := f.2.2.1 == str "1"
  if isDone then
    { m with
      completedTasks :=
        m.completedTasks ++ [⟨m.nextId, f.1, f.2.1, completed, f.2.2.2⟩]
      nextId := m.nextId + 1 }
  else addTask m f.1 f.2.1 completed f.2.2.2

/-- `TaskManager::loadFromFile(filename)`: process the file's lines in
order.  A missing file yields no lines, hence no change. -/
def loadFromFile (m : TaskManager) (lines : List Str) : TaskManager :=
  lines.foldl loadLine m

/-- The store operations reachable from the menu loop (display-only
actions do not change the state). -/
inductive Op where
  | add (title deadline : Str) (completed : Bool) (cat : Option Str)
  | complete (title : Str)
  | del (title : Str)
  | loadL (line : Str)
  deriving DecidableEq, Repr

/-- Apply one operation to the store. -/
def applyOp (m : TaskManager) : Op → TaskManager
  | .add t d c k => addTask m t d c k
  | .complete t => markCompleted m t
  | .del t => deleteTask m t
  | .loadL s => loadLine m s

/-- Apply a sequence of operations, left to right. -/
def runOps (m : TaskManager) (ops : List Op) : TaskManager :=
  ops.foldl applyOp m

/-- The observable fields of a task record: title, deadline, completed
flag and the `getCategory()` string. -/
def observe (t : TaskRec) : Str × Str × Bool × Str :=
  (t.title, t.deadline, t.completed, t.getCategory)

/-- A `CategorizedTask` whose category is the empty string serializes with
a dangling separator, which reloads as a plain `Task`; this normalisation
captures that (it is invisible to `observe`). -/
def normCat : Option Str → Option Str
  | some [] => none
  | c => c

/-- Field hygiene of an active task for the save/load round trip: no `;`
inside title, deadline or category, and the title does not start with the
`DONE:` marker. -/
def GoodA (t : TaskRec) : Prop :=
  ';' ∉ t.title ∧ ';' ∉ t.deadline ∧ ';' ∉ t.getCategory ∧
    (str "DONE:").isPrefixOf t.title = false

instance : DecidablePred GoodA := fun t => by
  unfold GoodA; infer_instance

/-- Every object id in the store is below the fresh-id counter — true of
every store the program can actually build. -/
def Fresh (m : TaskManager) : Prop :=
  (∀ tk ∈ m.tasks, tk.id < m.nextId) ∧
    (∀ tk ∈ m.completedTasks, tk.id < m.nextId) ∧
    (∀ e ∈ m.titleMap, e.2.id < m.nextId)

instance : DecidablePred Fresh := fun m => by
  unfold Fresh; infer_instance

/-- The task `A` sits in the active vector but no title-map entry points
at it (its map slot was overwritten): `A` can then never be completed or
deleted again. -/
def Avoid (m : TaskManager) (A : TaskRec) : Prop :=
  A ∈ m.tasks ∧ (∀ e ∈ m.titleMap, e.2.id ≠ A.id) ∧ A.id < m.nextId

/-- Uncurried `addTask`, for folding over a sequence of add calls. -/
def addArgsApply (m : TaskManager) (a : Str × Str × Bool × Option Str) :
    TaskManager :=
  addTask m a.1 a.2.1 a.2.2.1 a.2.2.2

/-- The title-map invariant maintained by `addTask`: the keys are
duplicate-free and each key resolves to the most recently pushed active
task with that title. -/
def MapInv (m : TaskManager) : Prop :=
  (m.titleMap.map Prod.fst).Nodup ∧
    ∀ t, lookupTitle m.titleMap t =
      (m.tasks.filter (fun tk => tk.title == t)).getLast?

/-! Helper lemmas about character-list primitives. -/

theorem isPrefixOf_app_self (p u : Str) : p.isPrefixOf (p ++ u) = true := by
  induction p with
  | nil => simp [List.isPrefixOf_nil_left]
  | cons a as ih => simp [List.isPrefixOf, ih]

theorem isPrefixOf_iff_exists (p : Str) :
    ∀ l : Str, p.isPrefixOf l = true ↔ ∃ u, p ++ u = l := by
  induction p with
  | nil => intro l; simp [List.isPrefixOf]
  | cons a as ih =>
    intro l
    cases l with
    | nil => simp [List.isPrefixOf]
    | cons b bs =>
      simp only [List.isPrefixOf, Bool.and_eq_true, beq_iff_eq, ih bs]
      constructor
      · rintro ⟨rfl, u, rfl⟩; exact ⟨u, rfl⟩
      · rintro ⟨u, h⟩
        injection h with h1 h2
        exact ⟨h1, u, h2⟩

theorem isPrefixOf_of_app_delim {d : Char} {p : Str} (hd : d ∉ p) :
    ∀ {t rest : Str}, p.isPrefixOf (t ++ d :: rest) = true →
      p.isPrefixOf t = true := by
  induction p with
  | nil => intro t rest _; simp [List.isPrefixOf_nil_left]
  | cons a as ih =>
    intro t rest h
    cases t with
    | nil =>
      simp only [List.nil_append, List.isPrefixOf, Bool.and_eq_true,
        beq_iff_eq] at h
      exact absurd (h.1 ▸ List.mem_cons_self a as) hd
    | cons b bs =>
      simp only [List.cons_append, List.isPrefixOf, Bool.and_eq_true,
        beq_iff_eq] at h ⊢
      exact ⟨h.1, ih (fun hm => hd (List.mem_cons_of_mem a hm)) h.2⟩

theorem takeWhile_field {d : Char} :
    ∀ {xs : Str} (rest : Str), (∀ x ∈ xs, x ≠ d) →
      (xs ++ d :: rest).takeWhile (fun c => c != d) = xs := by
  intro xs
  induction xs with
  | nil => intro rest _; simp [List.takeWhile]
  | cons a as ih =>
    intro rest h
    have ha : (a != d) = true := bne_iff_ne.mpr (h a (List.mem_cons_self a as))
    simp only [List.cons_append, List.takeWhile, ha]
    exact congrArg (a :: ·) (ih rest fun x hx => h x (List.mem_cons_of_mem a hx))

theorem dropWhile_field {d : Char} :
    ∀ {xs : Str} (rest : Str), (∀ x ∈ xs, x ≠ d) →
      (xs ++ d :: rest).dropWhile (fun c => c != d) = d :: rest := by
  intro xs
  induction xs with
  | nil => intro rest _; simp [List.dropWhile]
  | cons a as ih =>
    intro rest h
    have ha : (a != d) = true := bne_iff_ne.mpr (h a (List.mem_cons_self a as))
    simp only [List.cons_append, List.dropWhile, ha]
    exact ih rest fun x hx => h x (List.mem_cons_of_mem a hx)

theorem takeWhile_nodelim {d : Char} :
    ∀ {xs : Str}, (∀ x ∈ xs, x ≠ d) →
      xs.takeWhile (fun c => c != d) = xs := by
  intro xs
  induction xs with
  | nil => intro _; rfl
  | cons a as ih =>
    intro h
    have ha : (a != d) = true := bne_iff_ne.mpr (h a (List.mem_cons_self a as))
    simp only [List.takeWhile, ha]
    exact congrArg (a :: ·) (ih fun x hx => h x (List.mem_cons_of_mem a hx))

theorem dropWhile_nodelim {d : Char} :
    ∀ {xs : Str}, (∀ x ∈ xs, x ≠ d) →
      xs.dropWhile (fun c => c != d) = [] := by
  intro xs
  induction xs with
  | nil => intro _; rfl
  | cons a as ih =>
    intro h
    have ha : (a != d) = true := bne_iff_ne.mpr (h a (List.mem_cons_self a as))
    simp only [List.dropWhile, ha]
    exact ih fun x hx => h x (List.mem_cons_of_mem a hx)

theorem getlineD_nil (d : Char) : getlineD d [] = none := rfl

theorem getlineD_field {d : Char} {xs : Str} (rest : Str)
    (h : ∀ x ∈ xs, x ≠ d) : getlineD d (xs ++ d :: rest) = some (xs, rest) := by
  have hne : xs ++ d :: rest ≠ [] := by simp
  rw [getlineD, if_neg hne, takeWhile_field rest h, dropWhile_field rest h]
  rfl

theorem getlineD_nodelim {d : Char} {xs : Str} (h : ∀ x ∈ xs, x ≠ d)
    (hne : xs ≠ []) : getlineD d xs = some (xs, []) := by
  rw [getlineD, if_neg hne, takeWhile_nodelim h, dropWhile_nodelim h]
  rfl

/-! Helper lemmas about the title map. -/

theorem lookup_insert (l : List (Str × TaskRec)) (k : Str) (v : TaskRec)
    (t : Str) :
    lookupTitle (insertTitle l k v) t =
      if t = k then some v else lookupTitle l t := by
  induction l with
  | nil =>
    by_cases h : t = k
    · simp [insertTitle, lookupTitle, h]
    · simp [insertTitle, lookupTitle, h, Ne.symm h]
  | cons e rest ih =>
    by_cases he : e.1 = k
    · by_cases ht : t = k
      · simp only [insertTitle, if_pos he, lookupTitle, if_pos ht,
          if_pos ht.symm]
      · have h1 : ¬k = t := Ne.symm ht
        have h2 : ¬e.1 = t := by rw [he]; exact h1
        simp only [insertTitle, if_pos he, lookupTitle]
        rw [if_neg h1, if_neg ht, if_neg h2]
    · simp only [insertTitle, if_neg he, lookupTitle]
      by_cases het : e.1 = t
      · have h1 : ¬t = k := fun hh => he (het.trans hh)
        rw [if_pos het, if_neg h1, if_pos het]
      · rw [if_neg het, ih]
        by_cases ht : t = k
        · rw [if_pos ht, if_pos ht]
        · rw [if_neg ht, if_neg ht, if_neg het]

theorem lookup_none_iff (l : List (Str × TaskRec)) (t : Str) :
    lookupTitle l t = none ↔ t ∉ l.map Prod.fst := by
  induction l with
  | nil => simp [lookupTitle]
  | cons e rest ih =>
    by_cases he : e.1 = t
    · simp [lookupTitle, he]
    · simp only [lookupTitle, if_neg he, ih, List.map_cons, List.mem_cons]
      constructor
      · intro h hmem
        rcases hmem with h1 | h2
        · exact he h1.symm
        · exact h h2
      · intro h
        exact fun hmem => h (Or.inr hmem)

theorem lookup_mem {l : List (Str × TaskRec)} {t : Str} {v : TaskRec}
    (h : lookupTitle l t = some v) : (t, v) ∈ l := by
  induction l with
  | nil => simp [lookupTitle] at h
  | cons e rest ih =>
    by_cases he : e.1 = t
    · simp only [lookupTitle, if_pos he] at h
      obtain rfl : e.2 = v := Option.some.inj h
      exact he ▸ List.mem_cons_self e rest
    · simp only [lookupTitle, if_neg he] at h
      exact List.mem_cons_of_mem e (ih h)

theorem lookup_erase_self (l : List (Str × TaskRec)) (k : Str) :
    lookupTitle (eraseTitle l k) k = none := by
  induction l with
  | nil => rfl
  | cons e rest ih =>
    by_cases he : e.1 = k
    · have hb : (e.1 != k) = false := by simp [he]
      simpa only [eraseTitle, List.filter_cons, hb, Bool.false_eq_true,
        if_false] using ih
    · have hb : (e.1 != k) = true := bne_iff_ne.mpr he
      simp only [eraseTitle, List.filter_cons, hb, if_true, lookupTitle,
        if_neg he]
      simpa only [eraseTitle] using ih

theorem mem_erase_sub {l : List (Str × TaskRec)} {k : Str}
    {e : Str × TaskRec} (h : e ∈ eraseTitle l k) : e ∈ l :=
  List.mem_of_mem_filter h

theorem mem_insert_cases {l : List (Str × TaskRec)} {k : Str} {v : TaskRec} :
    ∀ {e : Str × TaskRec}, e ∈ insertTitle l k v → e ∈ l ∨ e = (k, v) := by
  induction l with
  | nil => intro e h; simp [insertTitle] at h; exact Or.inr h
  | cons a rest ih =>
    intro e h
    by_cases ha : a.1 = k
    · simp only [insertTitle, if_pos ha, List.mem_cons] at h
      rcases h with h | h
      · exact Or.inr h
      · exact Or.inl (List.mem_cons_of_mem a h)
    · simp only [insertTitle, if_neg ha, List.mem_cons] at h
      rcases h with h | h
      · exact Or.inl (h ▸ List.mem_cons_self a rest)
      · rcases ih h with h' | h'
        · exact Or.inl (List.mem_cons_of_mem a h')
        · exact Or.inr h'

theorem insert_insert (l : List (Str × TaskRec)) (k : Str) (u v : TaskRec) :
    insertTitle (insertTitle l k u) k v = insertTitle l k v := by
  induction l with
  | nil => simp [insertTitle]
  | cons e rest ih =>
    by_cases he : e.1 = k
    · simp [insertTitle, he]
    · simp [insertTitle, he, ih]

theorem keys_insert (l : List (Str × TaskRec)) (k : Str) (v : TaskRec) :
    (insertTitle l k v).map Prod.fst =
      if k ∈ l.map Prod.fst then l.map Prod.fst
      else l.map Prod.fst ++ [k] := by
  induction l with
  | nil => simp [insertTitle]
  | cons e rest ih =>
    by_cases he : e.1 = k
    · simp [insertTitle, he]
    · simp only [insertTitle, if_neg he, List.map_cons, ih]
      by_cases hk : k ∈ rest.map Prod.fst
      · simp [hk, Ne.symm he]
      · simp [hk, Ne.symm he]

/-! Helper lemmas about serialization and parsing. -/

theorem ne_of_notMem {c : Char} {l : Str} (h : c ∉ l) : ∀ x ∈ l, x ≠ c :=
  fun _ hx hxc => h (hxc ▸ hx)

theorem flag_beq (b : Bool) : ((if b then str "1" else str "0") == str "1") = b := by
  cases b <;> decide

theorem parseFields_toFileString (t : TaskRec) (h1 : ';' ∉ t.title)
    (h2 : ';' ∉ t.deadline) (h3 : ';' ∉ t.getCategory) :
    parseFields t.toFileString =
      (t.title, t.deadline, (if t.completed then str "1" else str "0"),
        normCat t.cat) := by
  obtain ⟨i, ti, dl, cp, ct⟩ := t
  simp only [TaskRec.getCategory] at h3
  simp only [TaskRec.title] at h1
  simp only [TaskRec.deadline] at h2
  have hflag : ∀ x ∈ (if cp then str "1" else str "0"), x ≠ ';' := by
    cases cp <;> decide
  have hflagne : (if cp then str "1" else str "0") ≠ [] := by
    cases cp <;> decide
  cases ct with
  | none =>
    simp only [TaskRec.toFileString, parseFields, Option.map_none',
      Option.getD_none, List.append_nil]
    rw [getlineD_field _ (ne_of_notMem h1)]
    simp only [Option.getD_some]
    rw [getlineD_field _ (ne_of_notMem h2)]
    simp only [Option.getD_some]
    rw [getlineD_nodelim hflag hflagne]
    simp [normCat, getlineD_nil]
  | some c =>
    simp only [Option.getD_some] at h3
    simp only [TaskRec.toFileString, parseFields, Option.map_some',
      Option.getD_some]
    rw [getlineD_field _ (ne_of_notMem h1)]
    simp only [Option.getD_some]
    rw [getlineD_field _ (ne_of_notMem h2)]
    simp only [Option.getD_some]
    rw [getlineD_field _ hflag]
    simp only [Option.getD_some]
    cases c with
    | nil => simp [getlineD_nil, normCat]
    | cons a cs =>
      rw [getlineD_nodelim (ne_of_notMem h3) (List.cons_ne_nil a cs)]
      simp [normCat]

theorem notDone_toFileString {t : TaskRec}
    (h4 : (str "DONE:").isPrefixOf t.title = false) :
    (str "DONE:").isPrefixOf t.toFileString = false := by
  rw [Bool.eq_false_iff]
  intro hc
  rw [TaskRec.toFileString] at hc
  have hd : ';' ∉ str "DONE:" := by decide
  have := isPrefixOf_of_app_delim hd hc
  rw [h4] at this
  exact Bool.false_ne_true this

theorem load_active (m : TaskManager) (t : TaskRec) (h1 : ';' ∉ t.title)
    (h2 : ';' ∉ t.deadline) (h3 : ';' ∉ t.getCategory)
    (h4 : (str "DONE:").isPrefixOf t.title = false) :
    loadLine m t.toFileString =
      addTask m t.title t.deadline t.completed (normCat t.cat) := by
  have hnd := notDone_toFileString h4
  rw [loadLine]
  simp only [hnd, Bool.false_eq_true, if_false,
    parseFields_toFileString t h1 h2 h3, flag_beq]

theorem parseFields_fst (xs r : Str) (h : ';' ∉ xs) :
    (parseFields (xs ++ ';' :: r)).1 = xs := by
  rw [parseFields]
  simp only [getlineD_field r (ne_of_notMem h), Option.getD_some]

theorem load_done (m : TaskManager) (t : TaskRec) (h1 : ';' ∉ t.title) :
    ∃ tk : TaskRec,
      loadLine m (str "DONE:" ++ t.toFileString) =
        { m with completedTasks := m.completedTasks ++ [tk],
                 nextId := m.nextId + 1 } ∧ tk.title = t.title := by
  have hd : (str "DONE:").isPrefixOf (str "DONE:" ++ t.toFileString) = true :=
    isPrefixOf_app_self _ _
  have hdrop : (str "DONE:" ++ t.toFileString).drop 5 = t.toFileString := by
    rw [show (5 : Nat) = (str "DONE:").length from rfl, List.drop_left]
  rw [loadLine]
  simp only [hd, if_true, hdrop]
  refine ⟨_, rfl, ?_⟩
  rw [TaskRec.toFileString]
  exact parseFields_fst _ _ h1

theorem getCategory_normCat (i : Nat) (ti dl : Str) (cp : Bool)
    (ct : Option Str) :
    TaskRec.getCategory ⟨i, ti, dl, cp, normCat ct⟩ =
      TaskRec.getCategory ⟨i, ti, dl, cp, ct⟩ := by
  cases ct with
  | none => rfl
  | some c => cases c <;> rfl

theorem observe_normCat (i j : Nat) (ti dl : Str) (cp : Bool)
    (ct : Option Str) :
    observe ⟨i, ti, dl, cp, normCat ct⟩ = observe ⟨j, ti, dl, cp, ct⟩ := by
  simp only [observe, getCategory_normCat]
  rfl

theorem load_actives :
    ∀ (ts : List TaskRec) (m : TaskManager), (∀ t ∈ ts, GoodA t) →
      (loadFromFile m (ts.map TaskRec.toFileString)).tasks.map observe =
          m.tasks.map observe ++ ts.map observe ∧
        (loadFromFile m (ts.map TaskRec.toFileString)).completedTasks =
          m.completedTasks := by
  intro ts
  induction ts with
  | nil => intro m _; simp [loadFromFile]
  | cons t rest ih =>
    intro m h
    obtain ⟨g1, g2, g3, g4⟩ := h t (List.mem_cons_self t rest)
    have hstep := load_active m t g1 g2 g3 g4
    have ihr := ih (addTask m t.title t.deadline t.completed (normCat t.cat))
      (fun u hu => h u (List.mem_cons_of_mem t hu))
    simp only [loadFromFile, List.map_cons, List.foldl_cons] at ihr ⊢
    rw [hstep]
    refine ⟨?_, ?_⟩
    · rw [ihr.1]
      simp only [addTask, List.map_append, List.map_cons, List.map_nil]
      rw [observe_normCat m.nextId t.id t.title t.deadline t.completed t.cat]
      simp only [List.append_assoc, List.singleton_append]
    · rw [ihr.2]
      rfl

theorem load_dones :
    ∀ (cs : List TaskRec) (m : TaskManager), (∀ t ∈ cs, ';' ∉ t.title) →
      (loadFromFile m
          (cs.map (fun t => str "DONE:" ++ t.toFileString))).tasks = m.tasks ∧
        (loadFromFile m
            (cs.map (fun t => str "DONE:" ++ t.toFileString))).completedTasks.map
            TaskRec.title =
          m.completedTasks.map TaskRec.title ++ cs.map TaskRec.title := by
  intro cs
  induction cs with
  | nil => intro m _; simp [loadFromFile]
  | cons t rest ih =>
    intro m h
    obtain ⟨tk, he, htitle⟩ := load_done m t (h t (List.mem_cons_self t rest))
    have ihr := ih
      { m with completedTasks := m.completedTasks ++ [tk],
               nextId := m.nextId + 1 }
      (fun u hu => h u (List.mem_cons_of_mem t hu))
    simp only [loadFromFile, List.map_cons, List.foldl_cons] at ihr ⊢
    rw [he]
    refine ⟨ihr.1, ?_⟩
    rw [ihr.2]
    simp [htitle]

/-- C1 (amended): for every store state whose active tasks have no `;` in
title, deadline or category and no title starting with `DONE:`, and whose
completed tasks have no `;` in the title, loading the lines written by
`saveToFile` into a fresh store reproduces the active records' (title,
deadline, completed, category) observables in order, and the completed
titles in order. -/
theorem saveLoadRoundTrip (S : TaskManager)
    (hA : ∀ t ∈ S.tasks, GoodA t)
    (hC : ∀ t ∈ S.completedTasks, ';' ∉ t.title) :
    (loadFromFile initTM (saveLines S)).tasks.map observe =
        S.tasks.map observe ∧
      (loadFromFile initTM (saveLines S)).completedTasks.map TaskRec.title =
        S.completedTasks.map TaskRec.title := by
  have h1 := load_actives S.tasks initTM hA
  have h2 := load_dones S.completedTasks
    (loadFromFile initTM (S.tasks.map TaskRec.toFileString)) hC
  simp only [loadFromFile] at h1 h2 ⊢
  rw [saveLines, List.foldl_append]
  constructor
  · rw [h2.1, h1.1]
    simp [initTM]
  · rw [h2.2, h1.2]
    simp [initTM]

/-! Helper lemmas about `stoi` and `dateToInt`. -/

theorem takeWhile_of_all {α : Type} (p : α → Bool) :
    ∀ l : List α, (∀ x ∈ l, p x = true) → l.takeWhile p = l := by
  intro l
  induction l with
  | nil => intro _; rfl
  | cons a as ih =>
    intro h
    rw [List.takeWhile_cons, h a (List.mem_cons_self a as)]
    simp only [if_true]
    exact congrArg (a :: ·) (ih fun x hx => h x (List.mem_cons_of_mem a hx))

theorem space_not_digit {c : Char} (h : isSpaceChar c = true) :
    c.isDigit = false := by
  rw [isSpaceChar] at h
  simp only [Bool.or_eq_true, beq_iff_eq] at h
  rcases h with ((((h | h) | h) | h) | h) | h
  all_goals subst h; decide

theorem digit_not_space {c : Char} (h : c.isDigit = true) :
    isSpaceChar c = false := by
  cases hs : isSpaceChar c
  · rfl
  · rw [space_not_digit hs] at h
    exact absurd h (by decide)

theorem digit_ne {c x : Char} (h : c.isDigit = true) (hx : x.isDigit = false) :
    c ≠ x := by
  intro heq
  rw [heq, hx] at h
  exact Bool.false_ne_true h

theorem stoi_digits (l : Str) (hne : l ≠ []) (hd : ∀ c ∈ l, c.isDigit = true)
    (hb : (digitsToNat l : Int) ≤ 2 ^ 31 - 1) :
    stoi l = some ((digitsToNat l : Int)) := by
  cases l with
  | nil => exact absurd rfl hne
  | cons a as =>
    have ha := hd a (List.mem_cons_self a as)
    have hsp : isSpaceChar a = false := digit_not_space ha
    have h1 : (a :: as).dropWhile isSpaceChar = a :: as := by
      rw [List.dropWhile_cons, hsp]
      simp
    have hsgn : ¬((a :: as).headD ' ' = '-' ∨ (a :: as).headD ' ' = '+') := by
      simp only [List.headD_cons]
      rintro (rfl | rfl) <;> exact absurd ha (by decide)
    have hneg : ¬(a :: as).headD ' ' = '-' := fun h => hsgn (Or.inl h)
    have htw : (a :: as).takeWhile Char.isDigit = a :: as :=
      takeWhile_of_all Char.isDigit (a :: as) hd
    have hnn : (0 : Int) ≤ (digitsToNat (a :: as) : Int) :=
      Int.natCast_nonneg _
    have hrange :
        ¬((digitsToNat (a :: as) : Int) < -(2 ^ 31) ∨
          (2 ^ 31 - 1 : Int) < (digitsToNat (a :: as) : Int)) := by
      rintro (h | h) <;> omega
    simp only [stoi, h1, htw]
    rw [if_neg hsgn, htw, if_neg (List.cons_ne_nil a as), if_neg hneg,
      if_neg hrange]

theorem pad2_digits {l : Str} (h : ∀ c ∈ l, c.isDigit = true) :
    ∀ c ∈ pad2 l, c.isDigit = true := by
  intro c hc
  rw [pad2] at hc
  by_cases hl : l.length = 1
  · rw [if_pos hl] at hc
    rcases List.mem_cons.mp hc with rfl | hc
    · decide
    · exact h c hc
  · rw [if_neg hl] at hc
    exact h c hc

theorem dateToInt_digits (d mo y : Str) (_hd : d ≠ []) (_hmo : mo ≠ [])
    (hy : y ≠ []) (had : ∀ c ∈ d, c.isDigit = true)
    (hamo : ∀ c ∈ mo, c.isDigit = true) (hay : ∀ c ∈ y, c.isDigit = true)
    (hb : (digitsToNat (y ++ pad2 mo ++ pad2 d) : Int) ≤ 2 ^ 31 - 1) :
    dateToInt (d ++ '.' :: (mo ++ '.' :: y)) =
      some ((digitsToNat (y ++ pad2 mo ++ pad2 d) : Int)) := by
  have hdot : ∀ {l : Str}, (∀ c ∈ l, c.isDigit = true) → ∀ x ∈ l, x ≠ '.' :=
    fun hl x hx => digit_ne (hl x hx) (by decide)
  simp only [dateToInt]
  rw [getlineD_field _ (hdot had)]
  simp only [Option.getD_some]
  rw [getlineD_field _ (hdot hamo)]
  simp only [Option.getD_some]
  rw [getlineD_nodelim (hdot hay) hy]
  simp only [Option.getD_some]
  have hall : ∀ c ∈ y ++ pad2 mo ++ pad2 d, c.isDigit = true := by
    intro c hc
    rcases List.mem_append.mp hc with hc | hc
    · rcases List.mem_append.mp hc with hc | hc
      · exact hay c hc
      · exact pad2_digits hamo c hc
    · exact pad2_digits had c hc
  have hne : y ++ pad2 mo ++ pad2 d ≠ [] := by
    intro hnil
    rcases List.append_eq_nil.mp hnil with ⟨h1, _⟩
    rcases List.append_eq_nil.mp h1 with ⟨h2, _⟩
    exact hy h2
  exact stoi_digits _ hne hall hb

/-! Helper lemmas about substring search. -/

theorem isSubstr_iff (q h : Str) :
    isSubstr q h = true ↔ ∃ pre post, h = pre ++ q ++ post := by
  rw [isSubstr, List.any_eq_true]
  constructor
  · rintro ⟨i, _, hp⟩
    obtain ⟨u, hu⟩ := (isPrefixOf_iff_exists q (h.drop i)).mp hp
    refine ⟨h.take i, u, ?_⟩
    rw [List.append_assoc, hu, List.take_append_drop]
  · rintro ⟨pre, post, rfl⟩
    refine ⟨pre.length, List.mem_range.mpr ?_, ?_⟩
    · have : pre.length ≤ (pre ++ q ++ post).length := by
        simp [List.length_append]
      omega
    · rw [List.append_assoc, List.drop_left]
      exact isPrefixOf_app_self q post

theorem isSubstr_self (l : Str) : isSubstr l l = true :=
  (isSubstr_iff l l).mpr ⟨[], [], by simp⟩

theorem isSubstr_nil (h : Str) : isSubstr [] h = true :=
  (isSubstr_iff [] h).mpr ⟨[], h, by simp⟩

theorem nodup_app_single {α : Type} {l : List α} {a : α} (h : l.Nodup)
    (ha : a ∉ l) : (l ++ [a]).Nodup := by
  rw [List.nodup_append]
  refine ⟨h, List.nodup_singleton a, ?_⟩
  intro x hx hxa
  rw [List.mem_singleton] at hxa
  exact ha (hxa ▸ hx)

/-! Invariant preservation lemmas for the store operations. -/

theorem mapInv_init : MapInv initTM := by
  constructor
  · simp [initTM]
  · intro t
    simp [initTM, lookupTitle]

theorem mapInv_add (m : TaskManager) (title deadline : Str) (c : Bool)
    (k : Option Str) (h : MapInv m) :
    MapInv (addTask m title deadline c k) := by
  obtain ⟨hnd, hlk⟩ := h
  constructor
  · simp only [addTask]
    rw [keys_insert]
    by_cases hk : title ∈ m.titleMap.map Prod.fst
    · rw [if_pos hk]; exact hnd
    · rw [if_neg hk]; exact nodup_app_single hnd hk
  · intro t
    simp only [addTask]
    rw [lookup_insert, List.filter_append]
    by_cases ht : t = title
    · subst ht
      have hone :
          (([⟨m.nextId, t, deadline, c, k⟩] : List TaskRec).filter
            (fun tk => tk.title == t)) = [⟨m.nextId, t, deadline, c, k⟩] := by
        simp
      rw [if_pos rfl, hone, List.getLast?_concat]
    · have hnone :
          (([⟨m.nextId, title, deadline, c, k⟩] : List TaskRec).filter
            (fun tk => tk.title == t)) = [] := by
        simp [Ne.symm ht]
      rw [if_neg ht, hnone, List.append_nil, hlk t]

theorem mapInv_foldl :
    ∀ (args : List (Str × Str × Bool × Option Str)) (m : TaskManager),
      MapInv m → MapInv (args.foldl addArgsApply m) := by
  intro args
  induction args with
  | nil => intro m h; exact h
  | cons a rest ih =>
    intro m h
    rw [List.foldl_cons]
    exact ih _ (mapInv_add m a.1 a.2.1 a.2.2.1 a.2.2.2 h)

theorem cats_sub_addTask (m : TaskManager) (t d : Str) (cp : Bool)
    (k : Option Str) : ∀ c ∈ m.categories, c ∈ (addTask m t d cp k).categories := by
  intro c hc
  simp only [addTask]
  by_cases hk : TaskRec.getCategory ⟨m.nextId, t, d, cp, k⟩ = []
  · rw [if_pos hk]; exact hc
  · rw [if_neg hk, insertCat]
    by_cases hm : TaskRec.getCategory ⟨m.nextId, t, d, cp, k⟩ ∈ m.categories
    · rw [if_pos hm]; exact hc
    · rw [if_neg hm]; exact List.mem_append_left _ hc

theorem cats_sub_applyOp (m : TaskManager) (op : Op) :
    ∀ c ∈ m.categories, c ∈ (applyOp m op).categories := by
  cases op with
  | add t d cp k => exact cats_sub_addTask m t d cp k
  | complete t =>
    intro c hc
    rw [applyOp, markCompleted]
    cases hl : lookupTitle m.titleMap t with
    | none => exact hc
    | some tk => exact hc
  | del t =>
    intro c hc
    rw [applyOp, deleteTask]
    cases hl : lookupTitle m.titleMap t with
    | none => exact hc
    | some tk => exact hc
  | loadL s =>
    intro c hc
    rw [applyOp, loadLine]
    cases hd : (str "DONE:").isPrefixOf s
    · simp only [Bool.false_eq_true, if_false]
      exact cats_sub_addTask m _ _ _ _ c hc
    · simp only [if_true]
      exact hc

theorem cats_mono_runOps :
    ∀ (ops : List Op) (m : TaskManager) (c : Str),
      c ∈ m.categories → c ∈ (runOps m ops).categories := by
  intro ops
  induction ops with
  | nil => intro m c hc; exact hc
  | cons op rest ih =>
    intro m c hc
    rw [runOps, List.foldl_cons]
    exact ih (applyOp m op) c (cats_sub_applyOp m op c hc)

theorem avoid_addTask (m : TaskManager) (A : TaskRec) (t d : Str) (cp : Bool)
    (k : Option Str) (h : Avoid m A) : Avoid (addTask m t d cp k) A := by
  obtain ⟨hmem, hmap, hid⟩ := h
  refine ⟨List.mem_append_left _ hmem, ?_, Nat.lt_succ_of_lt hid⟩
  intro e he
  rcases mem_insert_cases he with hm | hm
  · exact hmap e hm
  · subst hm
    intro heq
    have heq2 : m.nextId = A.id := heq
    rw [heq2] at hid
    exact Nat.lt_irrefl _ hid

theorem avoid_markCompleted (m : TaskManager) (A : TaskRec) (t : Str)
    (h : Avoid m A) : Avoid (markCompleted m t) A := by
  obtain ⟨hmem, hmap, hid⟩ := h
  rw [markCompleted]
  cases hl : lookupTitle m.titleMap t with
  | none => exact ⟨hmem, hmap, hid⟩
  | some tk =>
    have hne : A.id ≠ tk.id := Ne.symm (hmap (t, tk) (lookup_mem hl))
    refine ⟨?_, ?_, hid⟩
    · rw [List.mem_filter]
      exact ⟨hmem, bne_iff_ne.mpr hne⟩
    · intro e he
      exact hmap e (mem_erase_sub he)

theorem avoid_deleteTask (m : TaskManager) (A : TaskRec) (t : Str)
    (h : Avoid m A) : Avoid (deleteTask m t) A := by
  obtain ⟨hmem, hmap, hid⟩ := h
  rw [deleteTask]
  cases hl : lookupTitle m.titleMap t with
  | none => exact ⟨hmem, hmap, hid⟩
  | some tk =>
    have hne : A.id ≠ tk.id := Ne.symm (hmap (t, tk) (lookup_mem hl))
    refine ⟨?_, ?_, hid⟩
    · rw [List.mem_filter]
      exact ⟨hmem, bne_iff_ne.mpr hne⟩
    · intro e he
      exact hmap e (mem_erase_sub he)

theorem avoid_loadLine (m : TaskManager) (A : TaskRec) (s : Str)
    (h : Avoid m A) : Avoid (loadLine m s) A := by
  rw [loadLine]
  cases hd : (str "DONE:").isPrefixOf s
  · simp only [Bool.false_eq_true, if_false]
    exact avoid_addTask m A _ _ _ _ h
  · simp only [if_true]
    obtain ⟨hmem, hmap, hid⟩ := h
    exact ⟨hmem, hmap, Nat.lt_succ_of_lt hid⟩

theorem avoid_applyOp (m : TaskManager) (A : TaskRec) (op : Op)
    (h : Avoid m A) : Avoid (applyOp m op) A := by
  cases op with
  | add t d cp k => exact avoid_addTask m A t d cp k h
  | complete t => exact avoid_markCompleted m A t h
  | del t => exact avoid_deleteTask m A t h
  | loadL s => exact avoid_loadLine m A s h

theorem avoid_runOps :
    ∀ (ops : List Op) (m : TaskManager) (A : TaskRec),
      Avoid m A → Avoid (runOps m ops) A := by
  intro ops
  induction ops with
  | nil => intro m A h; exact h
  | cons op rest ih =>
    intro m A h
    rw [runOps, List.foldl_cons]
    exact ih (applyOp m op) A (avoid_applyOp m A op h)

theorem mem_of_getLast_some {α : Type} :
    ∀ (l : List α) (a : α), l.getLast? = some a → a ∈ l := by
  intro l
  induction l with
  | nil => intro a h; simp [List.getLast?] at h
  | cons b t ih =>
    intro a h
    cases t with
    | nil =>
      have hba : b = a := by simpa [List.getLast?] using h
      exact hba ▸ List.mem_cons_self b []
    | cons c t2 =>
      rw [List.getLast?_cons_cons] at h
      exact List.mem_cons_of_mem b (ih a h)

theorem markCompleted_none {m : TaskManager} {t : Str}
    (h : lookupTitle m.titleMap t = none) : markCompleted m t = m := by
  rw [markCompleted, h]

theorem deleteTask_none {m : TaskManager} {t : Str}
    (h : lookupTitle m.titleMap t = none) : deleteTask m t = m := by
  rw [deleteTask, h]

/-! The claims. -/

/-- C1, claim as stated refuted: a store whose single active task is
titled `a;b` does not survive the save/load round trip — the reloaded
store's only active title is `a`, and `a;b` is in no reloaded title. -/
theorem saveLoadRoundTrip_cex :
    (loadFromFile initTM (saveLines ⟨[⟨0, str "a;b", str "d", false, none⟩],
        [], [(str "a;b", ⟨0, str "a;b", str "d", false, none⟩)], [],
        1⟩)).tasks.map TaskRec.title ≠ [str "a;b"] ∧
      str "a;b" ∉
        (loadFromFile initTM (saveLines ⟨[⟨0, str "a;b", str "d", false,
            none⟩], [], [(str "a;b", ⟨0, str "a;b", str "d", false, none⟩)],
            [], 1⟩)).tasks.map TaskRec.title := by
  decide

/-- A store with one active categorized task and one completed task, used
to witness the round-trip theorem. -/
def roundTripSample : TaskManager :=
  markCompleted
    (addTask (addTask initTM (str "a") (str "1.1.2024") false (some (str "W")))
      (str "b") (str "2.2.2024") false none)
    (str "a")

/-- C1 witness: the round trip holds at a concrete hygienic store. -/
theorem saveLoadRoundTrip_witness :
    (loadFromFile initTM (saveLines roundTripSample)).tasks.map observe =
        roundTripSample.tasks.map observe ∧
      (loadFromFile initTM (saveLines roundTripSample)).completedTasks.map
          TaskRec.title =
        roundTripSample.completedTasks.map TaskRec.title :=
  saveLoadRoundTrip roundTripSample (by decide) (by decide)

/-- The three-task store of the sort scenario, in insertion order
1.1.2024, 15.03.2023, 02.02.2024. -/
def sortSample : TaskManager :=
  addTask
    (addTask (addTask initTM (str "t1") (str "1.1.2024") false none)
      (str "t2") (str "15.03.2023") false none)
    (str "t3") (str "02.02.2024") false none

/-- C2, claim as stated refuted: the sorted listing of the three
deadlines is not 15.03.2023, 02.02.2024, 1.1.2024. -/
theorem sortOrder_cex :
    (viewTasks sortSample true).map (fun l => l.map TaskRec.deadline) ≠
      some [str "15.03.2023", str "02.02.2024", str "1.1.2024"] := by
  decide

/-- C2 (amended): the deadline keys are 20230315, 20240101 and 20240202,
so the sorted listing orders the three deadlines 15.03.2023, then
1.1.2024, then 02.02.2024. -/
theorem sortOrder :
    (viewTasks sortSample true).map (fun l => l.map TaskRec.deadline) =
        some [str "15.03.2023", str "1.1.2024", str "02.02.2024"] ∧
      dateToInt (str "15.03.2023") = some 20230315 ∧
      dateToInt (str "1.1.2024") = some 20240101 ∧
      dateToInt (str "02.02.2024") = some 20240202 := by
  decide

/-- C3, claim as stated refuted: `"1.2"` has two dot-separated fields,
not three (one dot), yet the conversion succeeds, returning 201. -/
theorem dateToIntGate_cex :
    dateToInt (str "1.2") = some 201 ∧ (str "1.2").count '.' = 1 := by
  decide

/-- C3 (amended): the conversion succeeds on every string of three
dot-separated nonempty all-digit fields whose reassembled
year/month/day value fits in `int`; but success does not imply that
shape — `"1.2"` (two fields) also succeeds, with value 201, while
`"abc"` fails. -/
theorem dateToIntGate :
    (∀ d mo y : Str, d ≠ [] → mo ≠ [] → y ≠ [] →
        (∀ c ∈ d, c.isDigit = true) → (∀ c ∈ mo, c.isDigit = true) →
        (∀ c ∈ y, c.isDigit = true) →
        (digitsToNat (y ++ pad2 mo ++ pad2 d) : Int) ≤ 2 ^ 31 - 1 →
        dateToInt (d ++ '.' :: (mo ++ '.' :: y)) =
          some ((digitsToNat (y ++ pad2 mo ++ pad2 d) : Int))) ∧
      dateToInt (str "1.2") = some 201 ∧ dateToInt (str "abc") = none := by
  refine ⟨?_, by decide, by decide⟩
  intro d mo y h1 h2 h3 h4 h5 h6 h7
  exact dateToInt_digits d mo y h1 h2 h3 h4 h5 h6 h7

/-- C3 witness: the three-digit-field case at 28.11.2024. -/
theorem dateToIntGate_witness :
    dateToInt (str "28" ++ '.' :: (str "11" ++ '.' :: str "2024")) =
      some ((digitsToNat (str "2024" ++ pad2 (str "11") ++ pad2 (str "28")) :
        Int)) :=
  dateToIntGate.1 (str "28") (str "11") (str "2024") (by decide) (by decide)
    (by decide) (by decide) (by decide) (by decide) (by decide)

/-- C4 (code bug): `saveToFile` never inspects the stream state, so when
the path cannot be opened (`openOk = false`) it still returns without any
error indication, having written nothing — even for a non-empty store
whose save lines exist. -/
theorem saveSwallowsOpenFailure :
    saveToFile (addTask initTM (str "a") (str "d") false none) false =
        Except.ok [] ∧
      saveLines (addTask initTM (str "a") (str "d") false none) =
        [str "a;d;0"] :=
  ⟨rfl, rfl⟩

/-- C5 (confirmed): after any sequence of add calls on a fresh store, the
title map's keys are duplicate-free, a title is a key exactly when some
active task bears it, and each key resolves to the last-pushed active
task with that title (so a duplicate add overwrites the lookup target
while the older record stays in the active sequence). -/
theorem uniqueTitleIndex (args : List (Str × Str × Bool × Option Str)) :
    ((args.foldl addArgsApply initTM).titleMap.map Prod.fst).Nodup ∧
      (∀ t, t ∈ (args.foldl addArgsApply initTM).titleMap.map Prod.fst ↔
        t ∈ (args.foldl addArgsApply initTM).tasks.map TaskRec.title) ∧
      ∀ t, lookupTitle (args.foldl addArgsApply initTM).titleMap t =
        ((args.foldl addArgsApply initTM).tasks.filter
          (fun tk => tk.title == t)).getLast? := by
  obtain ⟨hnd, hlk⟩ := mapInv_foldl args initTM mapInv_init
  refine ⟨hnd, ?_, hlk⟩
  intro t
  constructor
  · intro ht
    cases ho : lookupTitle (args.foldl addArgsApply initTM).titleMap t with
    | none => exact absurd ((lookup_none_iff _ t).mp ho) (not_not_intro ht)
    | some tk =>
      have hlast := (hlk t).symm.trans ho
      have hmem := mem_of_getLast_some _ tk hlast
      rw [List.mem_filter] at hmem
      have : tk.title = t := by
        have := hmem.2
        rwa [beq_iff_eq] at this
      exact List.mem_map.mpr ⟨tk, hmem.1, this⟩
  · intro ht
    rcases List.mem_map.mp ht with ⟨tk, htk, rfl⟩
    by_contra hnot
    have hnone := (lookup_none_iff _ tk.title).mpr hnot
    rw [hlk tk.title] at hnone
    have hfil :
        (args.foldl addArgsApply initTM).tasks.filter
          (fun u => u.title == tk.title) = [] :=
      List.getLast?_eq_none_iff.mp hnone
    have : tk ∈ (args.foldl addArgsApply initTM).tasks.filter
        (fun u => u.title == tk.title) :=
      List.mem_filter.mpr ⟨htk, beq_self_eq_true tk.title⟩
    rw [hfil] at this
    exact absurd this (List.not_mem_nil tk)

/-- C6 (confirmed): when `complete(title)` succeeds (the title resolves in
the map to some task), the title is gone from the map afterwards, so an
immediately following `complete(title)` or `delete(title)` leaves the
store unchanged; the completed copy sits in the completed list and no
active task carries the completed object's identity any more. -/
theorem completionTerminal (m : TaskManager) (title : Str) (tk : TaskRec)
    (h : lookupTitle m.titleMap title = some tk) :
    markCompleted (markCompleted m title) title = markCompleted m title ∧
      deleteTask (markCompleted m title) title = markCompleted m title ∧
      lookupTitle (markCompleted m title).titleMap title = none ∧
      ({ tk with completed := true }) ∈
        (markCompleted m title).completedTasks ∧
      ∀ u ∈ (markCompleted m title).tasks, u.id ≠ tk.id := by
  have hnone : lookupTitle (markCompleted m title).titleMap title = none := by
    rw [markCompleted, h]
    exact lookup_erase_self m.titleMap title
  refine ⟨markCompleted_none hnone, deleteTask_none hnone, hnone, ?_, ?_⟩
  · rw [markCompleted, h]
    exact List.mem_append_right _ (List.mem_cons_self _ [])
  · rw [markCompleted, h]
    intro u hu
    rw [List.mem_filter] at hu
    exact bne_iff_ne.mp hu.2

/-- C6 witness: completing `a` twice, or completing then deleting, is the
same as completing once. -/
theorem completionTerminal_witness :
    markCompleted (markCompleted (addTask initTM (str "a") (str "d") false
          none) (str "a")) (str "a") =
        markCompleted (addTask initTM (str "a") (str "d") false none)
          (str "a") ∧
      deleteTask (markCompleted (addTask initTM (str "a") (str "d") false
          none) (str "a")) (str "a") =
        markCompleted (addTask initTM (str "a") (str "d") false none)
          (str "a") ∧
      lookupTitle (markCompleted (addTask initTM (str "a") (str "d") false
          none) (str "a")).titleMap (str "a") = none := by
  have h := completionTerminal (addTask initTM (str "a") (str "d") false none)
    (str "a") ⟨0, str "a", str "d", false, none⟩ (by decide)
  exact ⟨h.1, h.2.1, h.2.2.1⟩

/-- C7 (confirmed): once a category is in the categories set, it stays
there after any sequence of store operations — deletes and completions
included. -/
theorem categoryMonotone (m : TaskManager) (c : Str) (ops : List Op)
    (h : c ∈ m.categories) : c ∈ (runOps m ops).categories :=
  cats_mono_runOps ops m c h

/-- C7 witness: `Work` survives deleting and completing its only task. -/
theorem categoryMonotone_witness :
    str "Work" ∈
      (runOps (addTask initTM (str "t") (str "d") false (some (str "Work")))
        [Op.del (str "t"), Op.complete (str "t")]).categories :=
  categoryMonotone (addTask initTM (str "t") (str "d") false
    (some (str "Work"))) (str "Work")
    [Op.del (str "t"), Op.complete (str "t")] (by decide)

/-- C8 (confirmed): loading the single line
`DONE:Report;10.10.2024;1;Work` yields no active tasks, exactly one
completed task titled `Report`, an empty title map and an empty
categories set. -/
theorem loadDoneBypassesIndexing :
    (loadFromFile initTM [str "DONE:Report;10.10.2024;1;Work"]).tasks = [] ∧
      (loadFromFile initTM
          [str "DONE:Report;10.10.2024;1;Work"]).completedTasks.map
          TaskRec.title = [str "Report"] ∧
      (loadFromFile initTM [str "DONE:Report;10.10.2024;1;Work"]).titleMap =
        [] ∧
      (loadFromFile initTM [str "DONE:Report;10.10.2024;1;Work"]).categories =
        [] := by
  decide

/-- C9 (confirmed): search selects exactly the active tasks whose title
contains the query as a contiguous case-sensitive substring; the empty
query selects every active task; and on the `Buy milk` store, `milk`
selects the task while `Milk` selects nothing. -/
theorem searchSubstringSpec :
    (∀ (m : TaskManager) (q : Str) (tk : TaskRec),
        tk ∈ searchTask m q ↔
          tk ∈ m.tasks ∧ ∃ pre post, tk.title = pre ++ q ++ post) ∧
      (∀ m : TaskManager, searchTask m [] = m.tasks) ∧
      searchTask (addTask initTM (str "Buy milk") (str "01.01.2025") false
          none) (str "milk") =
        (addTask initTM (str "Buy milk") (str "01.01.2025") false
          none).tasks ∧
      searchTask (addTask initTM (str "Buy milk") (str "01.01.2025") false
        none) (str "Milk") = [] := by
  refine ⟨?_, ?_, by decide, by decide⟩
  · intro m q tk
    rw [searchTask, List.mem_filter]
    constructor
    · rintro ⟨hm, hs⟩
      obtain ⟨pre, post, hp⟩ := (isSubstr_iff q tk.title).mp hs
      exact ⟨hm, pre, post, hp⟩
    · rintro ⟨hm, pre, post, hp⟩
      exact ⟨hm, (isSubstr_iff q tk.title).mpr ⟨pre, post, hp⟩⟩
  · intro m
    rw [searchTask]
    exact List.filter_eq_self.mpr fun t _ => isSubstr_nil t.title

/-- C10 (confirmed): adding two records under the same title leaves the
map pointing at the second; completing or deleting the title then removes
only the second record, the first remains in the active sequence, shows
up in the unsorted listing and in a search for its title, and survives
every further operation sequence — no map entry ever points at it
again. -/
theorem shadowedRecordOrphaned (m : TaskManager) (title d1 d2 : Str)
    (c1 c2 : Bool) (k1 k2 : Option Str) (ops : List Op) (hF : Fresh m) :
    lookupTitle
        (addTask (addTask m title d1 c1 k1) title d2 c2 k2).titleMap title =
      some ⟨m.nextId + 1, title, d2, c2, k2⟩ ∧
    (markCompleted (addTask (addTask m title d1 c1 k1) title d2 c2 k2)
        title).tasks = m.tasks ++ [⟨m.nextId, title, d1, c1, k1⟩] ∧
    (deleteTask (addTask (addTask m title d1 c1 k1) title d2 c2 k2)
        title).tasks = m.tasks ++ [⟨m.nextId, title, d1, c1, k1⟩] ∧
    (⟨m.nextId, title, d1, c1, k1⟩ : TaskRec) ∈
      searchTask (markCompleted (addTask (addTask m title d1 c1 k1) title d2
        c2 k2) title) title ∧
    viewTasks (markCompleted (addTask (addTask m title d1 c1 k1) title d2 c2
        k2) title) false =
      some (m.tasks ++ [⟨m.nextId, title, d1, c1, k1⟩]) ∧
    (⟨m.nextId, title, d1, c1, k1⟩ : TaskRec) ∈
      (runOps (markCompleted (addTask (addTask m title d1 c1 k1) title d2 c2
        k2) title) ops).tasks := by
  have hmap2 :
      (addTask (addTask m title d1 c1 k1) title d2 c2 k2).titleMap =
        insertTitle m.titleMap title ⟨m.nextId + 1, title, d2, c2, k2⟩ :=
    insert_insert m.titleMap title ⟨m.nextId, title, d1, c1, k1⟩
      ⟨m.nextId + 1, title, d2, c2, k2⟩
  have ha :
      lookupTitle
          (addTask (addTask m title d1 c1 k1) title d2 c2 k2).titleMap title =
        some ⟨m.nextId + 1, title, d2, c2, k2⟩ := by
    rw [hmap2, lookup_insert, if_pos rfl]
  have htasks2 :
      (addTask (addTask m title d1 c1 k1) title d2 c2 k2).tasks =
        (m.tasks ++ [⟨m.nextId, title, d1, c1, k1⟩]) ++
          [⟨m.nextId + 1, title, d2, c2, k2⟩] := rfl
  have hMfil :
      m.tasks.filter (fun u => u.id != (⟨m.nextId + 1, title, d2, c2,
        k2⟩ : TaskRec).id) = m.tasks := by
    refine List.filter_eq_self.mpr fun u hu => bne_iff_ne.mpr fun heq => ?_
    have hlt := hF.1 u hu
    have heq2 : u.id = m.nextId + 1 := heq
    rw [heq2] at hlt
    omega
  have hAfil :
      ([⟨m.nextId, title, d1, c1, k1⟩] : List TaskRec).filter
        (fun u => u.id != (⟨m.nextId + 1, title, d2, c2, k2⟩ :
          TaskRec).id) = [⟨m.nextId, title, d1, c1, k1⟩] := by
    simp [bne_iff_ne]
  have hBfil :
      ([⟨m.nextId + 1, title, d2, c2, k2⟩] : List TaskRec).filter
        (fun u => u.id != (⟨m.nextId + 1, title, d2, c2, k2⟩ :
          TaskRec).id) = [] := by
    simp
  have hb :
      (markCompleted (addTask (addTask m title d1 c1 k1) title d2 c2 k2)
        title).tasks = m.tasks ++ [⟨m.nextId, title, d1, c1, k1⟩] := by
    rw [markCompleted, ha]
    show ((addTask (addTask m title d1 c1 k1) title d2 c2 k2).tasks.filter
      (fun u => u.id != (⟨m.nextId + 1, title, d2, c2, k2⟩ : TaskRec).id)) = _
    rw [htasks2, List.filter_append, List.filter_append, hMfil, hAfil, hBfil,
      List.append_nil]
  have hc :
      (deleteTask (addTask (addTask m title d1 c1 k1) title d2 c2 k2)
        title).tasks = m.tasks ++ [⟨m.nextId, title, d1, c1, k1⟩] := by
    rw [deleteTask, ha]
    show ((addTask (addTask m title d1 c1 k1) title d2 c2 k2).tasks.filter
      (fun u => u.id != (⟨m.nextId + 1, title, d2, c2, k2⟩ : TaskRec).id)) = _
    rw [htasks2, List.filter_append, List.filter_append, hMfil, hAfil, hBfil,
      List.append_nil]
  have hmemA : (⟨m.nextId, title, d1, c1, k1⟩ : TaskRec) ∈
      (markCompleted (addTask (addTask m title d1 c1 k1) title d2 c2 k2)
        title).tasks := by
    rw [hb]
    exact List.mem_append_right _ (List.mem_cons_self _ [])
  have hd :
      (⟨m.nextId, title, d1, c1, k1⟩ : TaskRec) ∈
        searchTask (markCompleted (addTask (addTask m title d1 c1 k1) title
          d2 c2 k2) title) title := by
    rw [searchTask, List.mem_filter]
    exact ⟨hmemA, isSubstr_self title⟩
  have hview :
      viewTasks (markCompleted (addTask (addTask m title d1 c1 k1) title d2
          c2 k2) title) false =
        some (m.tasks ++ [⟨m.nextId, title, d1, c1, k1⟩]) := by
    rw [show viewTasks (markCompleted (addTask (addTask m title d1 c1 k1)
      title d2 c2 k2) title) false =
      some (markCompleted (addTask (addTask m title d1 c1 k1) title d2 c2 k2)
        title).tasks from rfl, hb]
  have hmap3 :
      (markCompleted (addTask (addTask m title d1 c1 k1) title d2 c2 k2)
          title).titleMap =
        eraseTitle
          (addTask (addTask m title d1 c1 k1) title d2 c2 k2).titleMap
          title := by
    rw [markCompleted, ha]
  have havoid :
      Avoid (markCompleted (addTask (addTask m title d1 c1 k1) title d2 c2
        k2) title) ⟨m.nextId, title, d1, c1, k1⟩ := by
    refine ⟨hmemA, ?_, ?_⟩
    · intro e he
      rw [hmap3] at he
      have he2 := mem_erase_sub he
      rw [hmap2] at he2
      rcases mem_insert_cases he2 with hm | hm
      · have hlt := hF.2.2 e hm
        intro heq
        have heq2 : e.2.id = m.nextId := heq
        rw [heq2] at hlt
        omega
      · subst hm
        intro heq
        have heq2 : m.nextId + 1 = m.nextId := heq
        omega
    · show (⟨m.nextId, title, d1, c1, k1⟩ : TaskRec).id <
        (markCompleted (addTask (addTask m title d1 c1 k1) title d2 c2 k2)
          title).nextId
      have hnid :
          (markCompleted (addTask (addTask m title d1 c1 k1) title d2 c2 k2)
            title).nextId = m.nextId + 2 := by
        rw [markCompleted, ha]
        rfl
      rw [hnid]
      show m.nextId < m.nextId + 2
      omega
  exact ⟨ha, hb, hc, hd, hview, (avoid_runOps ops _ _ havoid).1⟩

/-- C10 witness: the shadowed first `x` record survives completing `x`,
re-adding `x` and deleting `x`. -/
theorem shadowedRecordOrphaned_witness :
    lookupTitle (addTask (addTask initTM (str "x") (str "1") false none)
        (str "x") (str "2") false none).titleMap (str "x") =
      some ⟨1, str "x", str "2", false, none⟩ ∧
    (markCompleted (addTask (addTask initTM (str "x") (str "1") false none)
        (str "x") (str "2") false none) (str "x")).tasks =
      initTM.tasks ++ [⟨0, str "x", str "1", false, none⟩] ∧
    (⟨0, str "x", str "1", false, none⟩ : TaskRec) ∈
      (runOps (markCompleted (addTask (addTask initTM (str "x") (str "1")
          false none) (str "x") (str "2") false none) (str "x"))
        [Op.complete (str "x"), Op.add (str "x") (str "3") false none,
          Op.del (str "x")]).tasks := by
  have h := shadowedRecordOrphaned initTM (str "x") (str "1") (str "2")
    false false none none
    [Op.complete (str "x"), Op.add (str "x") (str "3") false none,
      Op.del (str "x")] (by decide)
  exact ⟨h.1, h.2.1, h.2.2.2.2.2⟩

end Todo
